import Mathlib

/-!
Verification development for the request-construction and authentication core
of the `orchestra-technology/python-api` client library (`src/api.py`).

The embedding models Python values, truthiness and equality as far as the
library exercises them, and translates the filter compiler
(`Api.process_filters`), result shaping (`Api.get_rows`, `Api.group_by`), the
async polling loop (`Api._polling_http_request`), the storage credential
staleness check (`Api._is_s3_expired` / `Api.enable_s3`), and the
Signature-V4 signing path (`Api._s3_request`).
-/

set_option autoImplicit false

namespace OrchestraApi

/-- Python values as far as this library manipulates them.
Floats and other types are not exercised by the code under study. -/
inductive PyVal where
  | vstr : String → PyVal
  | vint : Int → PyVal
  | vbool : Bool → PyVal
  | vnone : PyVal
  | vlist : List PyVal → PyVal
  | vdict : List (String × PyVal) → PyVal
deriving Repr

mutual

/-- Python `==` on the modelled values.  Booleans compare numerically
equal to integers (`True == 1`), lists compare pointwise; dictionaries are
modelled as insertion-ordered association lists and compared pointwise. -/
def pyEq : PyVal → PyVal → Bool
  | .vstr s, .vstr t => s == t
  | .vint m, .vint n => m == n
  | .vbool a, .vbool b => a == b
  | .vbool a, .vint n => (if a then (1 : Int) else 0) == n
  | .vint m, .vbool b => m == (if b then (1 : Int) else 0)
  | .vnone, .vnone => true
  | .vlist a, .vlist b => pyEqList a b
  | .vdict a, .vdict b => pyEqDict a b
  | _, _ => false

def pyEqList : List PyVal → List PyVal → Bool
  | [], [] => true
  | a :: as, b :: bs => pyEq a b && pyEqList as bs
  | _, _ => false

def pyEqDict : List (String × PyVal) → List (String × PyVal) → Bool
  | [], [] => true
  | (k₁, v₁) :: as, (k₂, v₂) :: bs => k₁ == k₂ && pyEq v₁ v₂ && pyEqDict as bs
  | _, _ => false

end

/-- Python truthiness for the modelled values. -/
def pyTruthy : PyVal → Bool
  | .vstr s => s ≠ ""
  | .vint n => n ≠ 0
  | .vbool b => b
  | .vnone => false
  | .vlist l => !l.isEmpty
  | .vdict d => !d.isEmpty

/-- Whether a Python value is a `list` (`isinstance(f, list)`). -/
def isVList : PyVal → Bool
  | .vlist _ => true
  | _ => false

/-- Errors the modelled operations can raise.  `malformedFilter` stands for
the `AssertionError` raised by the shape assertions of `process_filters`
(the spec's `MalformedFilter`); `indexError` for indexing an empty list;
`typeError` for operations applied to values of an unsupported type. -/
inductive PyError where
  | malformedFilter
  | indexError
  | typeError
deriving Repr, DecidableEq

mutual

/-- Embedding of `Api.process_filters` (src/api.py lines 646-745): compile the filter
DSL into the `{"operator": ..., "conditions": [...]}` tree.
A leading `"or"`/`"and"` is stripped as the operator; if every remaining
element is a list, each is compiled recursively; otherwise the original,
un-stripped expression must be a `[field, relation, value]` triple with a
truthy relation, and the resulting leaf (built at a call with a zero local
`inject` counter, which this branch always has) is wrapped in a
single-condition group. -/
def process_filters (filters : List PyVal) : Except PyError PyVal :=
  match filters with
  | [] => .error .indexError
  | op :: rest =>
    let isOp := pyEq op (.vstr "or") || pyEq op (.vstr "and")
    let operator := if isOp then op else .vstr "and"
    let stripped := if isOp then rest else op :: rest
    if stripped.all isVList then
      match process_conditions stripped with
      | .error e => .error e
      | .ok conds => .ok (.vdict [("operator", operator), ("conditions", .vlist conds)])
    else
      match op :: rest with
      | [f₀, f₁, f₂] =>
        if pyTruthy f₁ then
          .ok (.vdict [("operator", operator),
            ("conditions", .vlist [.vdict [("path", f₀), ("relation", f₁),
              ("values", if isVList f₂ then f₂ else .vlist [f₂])]])])
        else .error .malformedFilter
      | _ => .error .malformedFilter
termination_by (sizeOf filters, 1)
decreasing_by
  simp_wf
  split
  · exact Prod.Lex.left _ _ (by omega)
  · exact Prod.Lex.right _ (by omega)

/-- Recursive compilation of a list of sub-expressions (the loop over
`filters` in the all-lists branch of `process_filters`).  The guard
guarantees every element is a list, so the non-list arm is unreachable. -/
def process_conditions (filters : List PyVal) : Except PyError (List PyVal) :=
  match filters with
  | [] => .ok []
  | .vlist l :: rest =>
    match process_filters l with
    | .error e => .error e
    | .ok c =>
      match process_conditions rest with
      | .error e => .error e
      | .ok cs => .ok (c :: cs)
  | _ :: _ => .error .typeError
termination_by (sizeOf filters, 0)
decreasing_by
  all_goals simp_wf
  all_goals exact Prod.Lex.left _ _ (by omega)

end

/-- The expression `process_filters` actually inspects for the all-lists
test: the tail when the head is an `"or"`/`"and"` token, the whole
expression otherwise. -/
def strippedFilters (filters : List PyVal) : List PyVal :=
  match filters with
  | [] => []
  | op :: rest =>
    if pyEq op (.vstr "or") || pyEq op (.vstr "and") then rest else op :: rest

/-- Predicate: `process_filters` takes its leaf branch exactly when the input is
non-empty and the stripped expression is not a list of lists. -/
def reachesLeafCase (filters : List PyVal) : Bool :=
  !filters.isEmpty && !(strippedFilters filters).all isVList

/-- Python `dict.get(k)`: the value of the first (only) entry with key `k`,
if any. -/
def pyGet (d : List (String × PyVal)) (k : String) : Option PyVal :=
  (d.find? (fun p => p.1 == k)).map (·.2)

/-- Whether a Python value is a `dict`. -/
def isVDict : PyVal → Bool
  | .vdict _ => true
  | _ => false

/-- Embedding of `Api.get_rows` (src/api.py lines 772-781): return `rows[0]` when the
payload's paging reports `page_size == 1` and `rows` is truthy, otherwise
the `rows` value unchanged (`None` when the key is absent).  Subscripting a
truthy non-list `rows`, or calling `.get` on a non-dict paging value, is
modelled as a type error. -/
def get_rows (payload : List (String × PyVal)) : Except PyError PyVal :=
  let rows := (pyGet payload "rows").getD .vnone
  let pages := (pyGet payload "paging").getD (.vdict [])
  match pages with
  | .vdict d =>
    let page_size := (pyGet d "page_size").getD .vnone
    if pyEq page_size (.vint 1) && pyTruthy rows then
      match rows with
      | .vlist (r :: _) => .ok r
      | _ => .error .typeError
    else .ok rows
  | _ => .error .typeError

/-- The inner loop of `Api.group_by` for one id: scan the row set and
return the first row whose `"id"` equals `id` (the `break` stops the scan
at the first hit); rows are not removed from the row set. -/
def rowMatch (id : PyVal) : List PyVal → Except PyError (Option PyVal)
  | [] => .ok none
  | .vdict d :: rest =>
    if pyEq ((pyGet d "id").getD .vnone) id then .ok (some (.vdict d))
    else rowMatch id rest
  | _ :: _ => .error .typeError

/-- The loop of `Api.group_by` over one group's ids: append, in id order,
the first matching row of each id, skipping ids with no match. -/
def group_children (rows : List PyVal) : List PyVal → Except PyError (List PyVal)
  | [] => .ok []
  | id :: ids =>
    match rowMatch id rows with
    | .error e => .error e
    | .ok m =>
      match group_children rows ids with
      | .error e => .error e
      | .ok rest => .ok (match m with | some r => r :: rest | none => rest)

/-- One iteration of `Api.group_by`'s outer loop: build
`{"display_name": ..., "children": [...]}` from one group descriptor. -/
def group_one (rows : List PyVal) (g : PyVal) : Except PyError PyVal :=
  match g with
  | .vdict d =>
    match (pyGet d "ids").getD .vnone with
    | .vlist ids =>
      match group_children rows ids with
      | .error e => .error e
      | .ok children =>
        .ok (.vdict [("display_name", (pyGet d "display_name").getD .vnone),
          ("children", .vlist children)])
    | _ => .error .typeError
  | _ => .error .typeError

/-- The outer loop of `Api.group_by` over the group descriptors, in input
order. -/
def group_by_groups (rows : List PyVal) : List PyVal → Except PyError (List PyVal)
  | [] => .ok []
  | g :: gs =>
    match group_one rows g with
    | .error e => .error e
    | .ok ng =>
      match group_by_groups rows gs with
      | .error e => .error e
      | .ok ngs => .ok (ng :: ngs)

/-- Embedding of `Api.group_by` (src/api.py lines 783-797): fetch the row set through
`get_rows`, then build one output group per descriptor in
`payload["groups"]`, in order.  Iterating a non-list row set or group list
is modelled as a type error. -/
def group_by (payload : List (String × PyVal)) : Except PyError (List PyVal) :=
  match get_rows payload with
  | .error e => .error e
  | .ok (.vlist rows) =>
    match (pyGet payload "groups").getD .vnone with
    | .vlist gs => group_by_groups rows gs
    | _ => .error .typeError
  | .ok _ => .error .typeError

/-- The `page_size` value `get_rows` reads: `payload.get("paging", {})`
followed by `.get("page_size", None)`. -/
def pagingPageSize (payload : List (String × PyVal)) : PyVal :=
  match (pyGet payload "paging").getD (.vdict []) with
  | .vdict d => (pyGet d "page_size").getD .vnone
  | _ => .vnone

/-- Whether a row (a dict) carries `"id"` equal to `id` under Python
equality. -/
def rowHasId (id : PyVal) (r : PyVal) : Bool :=
  match r with
  | .vdict d => pyEq ((pyGet d "id").getD .vnone) id
  | _ => false

/-- The grouping transformation described by the amended claim, per
descriptor: copy the display name and attach, in id order, the first row
of the (unconsumed) row set matching each id, skipping unmatched ids. -/
def groupBySpec (rows : List PyVal) (g : PyVal) : Option PyVal :=
  match g with
  | .vdict d =>
    match (pyGet d "ids").getD .vnone with
    | .vlist ids =>
      some (.vdict [("display_name", (pyGet d "display_name").getD .vnone),
        ("children", .vlist (ids.filterMap (fun id => rows.find? (rowHasId id))))])
    | _ => none
  | _ => none

/-- The loop of `Api._polling_http_request` (src/api.py lines 832-844),
step-indexed by fuel.  Request `i` receives HTTP status `status i`; on the
reserved still-running code 202 the caller sleeps once
(`time.sleep(POLLING_INTERVAL)`) and retries, on any other status the loop
exits and the response is returned.  The result pairs the number of sleeps
performed with the terminal status; `none` means the loop has not exited
within `fuel` requests. -/
def pollingAux (status : Nat → Nat) : Nat → Nat → Nat → Option (Nat × Nat)
  | 0, _, _ => none
  | fuel + 1, i, sleeps =>
    if status i = 202 then pollingAux status fuel (i + 1) (sleeps + 1)
    else some (sleeps, status i)

/-- Embedding of `Api._polling_http_request` run against a transport answering request
`i` with status `status i`, observed up to `fuel` requests. -/
def polling_http_request (status : Nat → Nat) (fuel : Nat) : Option (Nat × Nat) :=
  pollingAux status fuel 0 0

/-- Embedding of `Api._is_s3_expired` (src/api.py lines 1015-1020): the cached storage
credentials are stale when no expiration is cached or when the cached
expiration lies strictly before the current clock.  Timestamps are
modelled as integers; the ISO-8601 parsing of the cached string
(`_parse_iso8601_string`, not part of src/) is the identity of this
model. -/
def _is_s3_expired (expiration : Option Int) (now : Int) : Bool :=
  match expiration with
  | none => true
  | some e => e < now

/-- Embedding of `Api.enable_s3` (src/api.py lines 972-974): refresh the cached
credentials through the ack endpoint exactly when the staleness check
reports them expired; a successful refresh caches `freshExpiration`. -/
def enable_s3 (expiration : Option Int) (now freshExpiration : Int) : Option Int :=
  if _is_s3_expired expiration now then some freshExpiration else expiration

/-- Outcome of the guarded upload path `upload_attachment → enable_s3 →
_s3_upload → _s3_request`.  `_s3_request` signs unconditionally with
whatever credentials are cached at that point; no `CredentialsExpired`
failure exists anywhere in the code. -/
inductive S3UploadOutcome where
  | signed (usedExpiration : Option Int)
  | credentialsExpired
deriving Repr, DecidableEq

/-- The upload path: run the `enable_s3` staleness check, then sign with
the (possibly refreshed) cached credentials. -/
def s3_upload_flow (expiration : Option Int) (now freshExpiration : Int) :
    S3UploadOutcome :=
  .signed (enable_s3 expiration now freshExpiration)

/-- The cryptographic helpers of `_s3_request`, imported from the missing
`utils` module and therefore kept abstract: `sha256Hex` is the hex SHA-256
digest of a string, `hmac k m` the raw HMAC-SHA256, `hmacHex` its hex
form, and `md5b64` the base64 MD5 digest of an optional body.  Byte
strings are modelled as `String`. -/
structure HashFns where
  sha256Hex : String → String
  hmac : String → String → String
  hmacHex : String → String → String
  md5b64 : Option String → String

/-- The storage credential fields `_s3_request` reads from
`self._s3_credentials`. -/
structure S3Credentials where
  endPoint : String
  secure : Bool
  bucket : String
  region : String
  accessKey : String
  secretKey : String
  sessionToken : String

/-- Python `headers.get(k)` on the (case-sensitive, insertion-ordered)
header dict. -/
def hdrGet (d : List (String × String)) (k : String) : Option String :=
  (d.find? (fun p => p.1 == k)).map (·.2)

/-- Python `headers[k] = v`: update the entry in place when the key is
present, append it otherwise. -/
def hdrSet (d : List (String × String)) (k v : String) : List (String × String) :=
  if d.any (fun p => p.1 == k) then
    d.map (fun p => if p.1 == k then (k, v) else p)
  else d ++ [(k, v)]

/-- Embedding of `re.compile(r"( +)").sub(" ", value)`: collapse every run of spaces in
a header value to a single space.  The flag records whether the previous
character was a space. -/
def collapseSpacesAux : List Char → Bool → List Char
  | [], _ => []
  | c :: rest, prevSpace =>
    if c = ' ' then
      if prevSpace then collapseSpacesAux rest true
      else c :: collapseSpacesAux rest true
    else c :: collapseSpacesAux rest false

/-- Collapse runs of spaces in a string to single spaces. -/
def collapseSpaces (s : String) : String :=
  String.mk (collapseSpacesAux s.data false)

/-- Python `str.lower()` on the ASCII header names this code uses,
modelled as a character-wise map. -/
def strLower (s : String) : String :=
  String.mk (s.data.map Char.toLower)

/-- The header names `_s3_request` leaves out of the canonical set
(compared after lower-casing). -/
def isExcludedHeader (k : String) : Bool :=
  k == "authorization" || k == "content-type" || k == "content-length" ||
    k == "user-agent"

/-- Insert an entry into a key-sorted association list. -/
def insertByKey (p : String × String) :
    List (String × String) → List (String × String)
  | [] => [p]
  | q :: rest => if p.1 ≤ q.1 then p :: q :: rest else q :: insertByKey p rest

/-- Embedding of `OrderedDict(sorted(d.items()))`: sort the canonical header entries by
name. -/
def sortByKey : List (String × String) → List (String × String)
  | [] => []
  | p :: rest => insertByKey p (sortByKey rest)

/-- The canonical-header accumulation loop of `_s3_request`
(src/api.py lines 1081-1092): lower-case each name, skip the excluded
names, collapse space runs in the value, and store into a dict keyed by
the lowered name (a later duplicate overwrites). -/
def canonicalFold (headers : List (String × String)) : List (String × String) :=
  headers.foldl
    (fun acc p =>
      let key := strLower p.1
      if isExcludedHeader key then acc
      else hdrSet acc key (collapseSpaces p.2)) []

/-- The sorted canonical header entries of `_s3_request`. -/
def canonicalEntries (headers : List (String × String)) : List (String × String) :=
  sortByKey (canonicalFold headers)

/-- Python `"\n".join` over `name:value` lines. -/
def joinHeaderLines : List (String × String) → String
  | [] => ""
  | [p] => p.1 ++ ":" ++ p.2
  | p :: q :: rest => p.1 ++ ":" ++ p.2 ++ "\n" ++ joinHeaderLines (q :: rest)

/-- Python `";".join`. -/
def joinSemi : List String → String
  | [] => ""
  | [s] => s
  | s :: rest => s ++ ";" ++ joinSemi rest

/-- Everything `_s3_request` computes up to the point where the signed
request is handed to the transport. -/
structure SignedOutput where
  preAuthHeaders : List (String × String)
  headers : List (String × String)
  canonicalHeaders : List (String × String)
  signedHeaderNames : List String
  signedHeaders : String
  contentSha256 : String
  canonicalRequest : String
  stringToSign : String
  signingKey : String
  signature : String
  authorization : String

/-- The header-building prefix of `Api._s3_request` (src/api.py lines
1053-1075): content type, host, user agent, content length for a truthy
body, the content digest when no `Content-MD5` was pre-supplied, the
unsigned-payload sentinel, the session token and the timestamp.
`baseHeaders` stands for the result of
`_generate_headers(None, None, None, None, False)` (missing from src/)
and `userAgent` for the joined `USER_AGENTS` string. -/
def s3BuildHeaders (H : HashFns) (creds : S3Credentials)
    (baseHeaders : List (String × String)) (userAgent : String)
    (body : Option String) (amzDate : String) : List (String × String) :=
  let headers₀ := hdrSet baseHeaders "Content-Type" "application/octet-stream"
  let md5sum_added := hdrGet headers₀ "Content-MD5"
  let headers₁ := hdrSet headers₀ "Host" creds.endPoint
  let headers₂ := hdrSet headers₁ "User-Agent" userAgent
  let headers₃ :=
    match body with
    | some b =>
      if b ≠ "" then hdrSet headers₂ "Content-Length" (toString b.length)
      else headers₂
    | none => headers₂
  let md5sum : Option String :=
    match md5sum_added with
    | some s => if s ≠ "" then none else some (H.md5b64 body)
    | none => some (H.md5b64 body)
  let headers₄ :=
    match md5sum with
    | some m => if m ≠ "" then hdrSet headers₃ "Content-MD5" m else headers₃
    | none => headers₃
  let headers₅ := hdrSet headers₄ "x-amz-content-sha256" "UNSIGNED-PAYLOAD"
  let headers₆ := hdrSet headers₅ "X-Amz-Security-Token" creds.sessionToken
  hdrSet headers₆ "x-amz-date" amzDate

/-- Embedding of `Api._s3_request` (src/api.py lines 1037-1152), signing part: build
the headers through `s3BuildHeaders`, canonicalize, derive the signing
key and produce the Authorization header.  `amzDate` / `signerDate` stand
for `_to_amz_date(date)` / `_to_signer_date(date)` of the fixed clock
date. -/
def _s3_request (H : HashFns) (creds : S3Credentials)
    (baseHeaders : List (String × String)) (userAgent : String)
    (method objectName : String) (body : Option String)
    (amzDate signerDate : String) : SignedOutput :=
  let service_name := "s3"
  let path := "/" ++ creds.bucket ++ "/" ++ objectName
  let headers₇ := s3BuildHeaders H creds baseHeaders userAgent body amzDate
  let sha256 := "UNSIGNED-PAYLOAD"
  let scope := signerDate ++ "/" ++ creds.region ++ "/" ++ service_name ++ "/aws4_request"
  let canonical := canonicalEntries headers₇
  let signed_header_names := canonical.map (fun p => p.1)
  let signed_headers := joinSemi signed_header_names
  let canonical_headers := joinHeaderLines canonical
  let canonical_query_string := ""
  let content_sha256 := sha256
  let canonical_request := method ++ "\n" ++ path ++ "\n" ++ canonical_query_string
    ++ "\n" ++ canonical_headers ++ "\n\n" ++ signed_headers ++ "\n" ++ content_sha256
  let canonical_request_hash := H.sha256Hex canonical_request
  let string_to_sign := "AWS4-HMAC-SHA256\n" ++ amzDate ++ "\n" ++ scope ++ "\n"
    ++ canonical_request_hash
  let date_key := H.hmac ("AWS4" ++ creds.secretKey) signerDate
  let date_region_key := H.hmac date_key creds.region
  let date_region_service_key := H.hmac date_region_key service_name
  let signing_key := H.hmac date_region_service_key "aws4_request"
  let signature := H.hmacHex signing_key string_to_sign
  let authorization := "AWS4-HMAC-SHA256 Credential=" ++ creds.accessKey ++ "/"
    ++ scope ++ ", SignedHeaders=" ++ signed_headers ++ ", Signature=" ++ signature
  { preAuthHeaders := headers₇
    headers := hdrSet headers₇ "Authorization" authorization
    canonicalHeaders := canonical
    signedHeaderNames := signed_header_names
    signedHeaders := signed_headers
    contentSha256 := content_sha256
    canonicalRequest := canonical_request
    stringToSign := string_to_sign
    signingKey := signing_key
    signature := signature
    authorization := authorization }

/-- The reference canonicalization stated by the specification: names
lower-cased, the four excluded names dropped, space runs in values
collapsed, the surviving entries stored into a name-keyed dict and sorted
by name. -/
def referenceCanonicalEntries (headers : List (String × String)) :
    List (String × String) :=
  sortByKey
    (((headers.map (fun p => (strLower p.1, collapseSpaces p.2))).filter
        (fun p => !isExcludedHeader p.1)).foldl
      (fun acc p => hdrSet acc p.1 p.2) [])

/-- The reference Signature-V4 computation stated by the specification,
as a function of the request headers: canonical request
`METHOD\nPATH\n\nCANONICAL_HEADERS\n\nSIGNED_HEADERS\nPAYLOAD_HASH` with
an empty query string and the literal payload hash `UNSIGNED-PAYLOAD`;
string-to-sign from the algorithm tag, timestamp, scope
`DATE/REGION/s3/aws4_request` and the SHA-256 of the canonical request;
signing key `HMAC(HMAC(HMAC(HMAC("AWS4"+secret, date), region), "s3"),
"aws4_request")`; authorization
`AWS4-HMAC-SHA256 Credential=key/scope, SignedHeaders=..., Signature=...`. -/
def referenceAuthorization (H : HashFns) (creds : S3Credentials)
    (method path : String) (headers : List (String × String))
    (amzDate signerDate : String) : String :=
  let canon := referenceCanonicalEntries headers
  let signedNames := joinSemi (canon.map (fun p => p.1))
  let payloadHash := "UNSIGNED-PAYLOAD"
  let canonicalRequest := method ++ "\n" ++ path ++ "\n" ++ "" ++ "\n"
    ++ joinHeaderLines canon ++ "\n\n" ++ signedNames ++ "\n" ++ payloadHash
  let scope := signerDate ++ "/" ++ creds.region ++ "/" ++ "s3" ++ "/aws4_request"
  let stringToSign := "AWS4-HMAC-SHA256\n" ++ amzDate ++ "\n" ++ scope ++ "\n"
    ++ H.sha256Hex canonicalRequest
  let k₀ := "AWS4" ++ creds.secretKey
  let k₁ := H.hmac k₀ signerDate
  let k₂ := H.hmac k₁ creds.region
  let k₃ := H.hmac k₂ "s3"
  let signingKey := H.hmac k₃ "aws4_request"
  "AWS4-HMAC-SHA256 Credential=" ++ creds.accessKey ++ "/" ++ scope
    ++ ", SignedHeaders=" ++ signedNames ++ ", Signature="
    ++ H.hmacHex signingKey stringToSign

end OrchestraApi

namespace OrchestraApi

/-- Helper for C7: the polling loop, started at request index `i` with
`sleeps` sleeps already performed, returns the first non-202 response,
counting one sleep per 202 response. -/
theorem pollingAux_reaches_terminal (status : Nat → Nat) (n : Nat)
    (h202 : ∀ i < n, status i = 202) (hterm : status n ≠ 202) :
    ∀ fuel i sleeps, i ≤ n → n - i < fuel →
      pollingAux status fuel i sleeps = some (sleeps + (n - i), status n) := by
  intro fuel
  induction fuel with
  | zero => intro i sleeps _ hlt; omega
  | succ fuel ih =>
    intro i sleeps hle hlt
    rcases Nat.lt_or_ge i n with hi | hi
    · rw [pollingAux, if_pos (h202 i hi)]
      have harith : sleeps + 1 + (n - (i + 1)) = sleeps + (n - i) := by omega
      rw [ih (i + 1) (sleeps + 1) (by omega) (by omega), harith]
    · have : i = n := by omega
      subst this
      rw [pollingAux, if_neg hterm]
      simp

/-- Helper for C7: under a transport that always answers 202 the loop
never exits, whatever the observation bound. -/
theorem pollingAux_never_returns (status : Nat → Nat)
    (h : ∀ i, status i = 202) :
    ∀ fuel i sleeps, pollingAux status fuel i sleeps = none := by
  intro fuel
  induction fuel with
  | zero => intro i sleeps; rfl
  | succ fuel ih => intro i sleeps; rw [pollingAux, if_pos (h i)]; exact ih _ _

/-- C7: when the transport answers the first `n` status requests with the
reserved still-running code 202 and request `n + 1` with any other status,
the polling loop performs exactly `n` sleeps and returns that response as
terminal, whatever it signals; and for a transport answering 202 forever
the loop never exits, whatever the observation bound. -/
theorem polling_http_request_spec :
    (∀ (status : Nat → Nat) (n : Nat), (∀ i < n, status i = 202) →
      status n ≠ 202 → ∀ fuel, n < fuel →
        polling_http_request status fuel = some (n, status n)) ∧
    (∀ (status : Nat → Nat), (∀ i, status i = 202) →
      ∀ fuel, polling_http_request status fuel = none) := by
  constructor
  · intro status n h202 hterm fuel hfuel
    have := pollingAux_reaches_terminal status n h202 hterm fuel 0 0
      (by omega) (by omega)
    simpa [polling_http_request] using this
  · intro status h fuel
    exact pollingAux_never_returns status h fuel 0 0

/-- Witness for C7: two still-running responses then a 200 yield the
terminal response after exactly two sleeps; the constant-202 transport
yields no response within five requests. -/
theorem polling_http_request_spec_witness :
    polling_http_request (fun i => if i < 2 then 202 else 200) 3 = some (2, 200) ∧
    polling_http_request (fun _ => 202) 5 = none :=
  ⟨by
    have := polling_http_request_spec.1 (fun i => if i < 2 then 202 else 200) 2
      (by decide) (by decide) 3 (by decide)
    simpa using this,
    polling_http_request_spec.2 (fun _ => 202) (fun _ => rfl) 5⟩

/-- C6 counter-evidence: invoked exactly at the cached expiration instant
(`now = expiration`), the staleness check does not report the credentials
expired (`<` is strict), no refresh happens, and the upload path signs
with those very credentials instead of failing: no `CredentialsExpired`
outcome exists. -/
theorem s3_sign_at_expiration_not_rejected :
    _is_s3_expired (some 0) 0 = false ∧
    s3_upload_flow (some 0) 0 99 = .signed (some 0) ∧
    s3_upload_flow (some 0) 0 99 ≠ .credentialsExpired := by
  refine ⟨rfl, rfl, ?_⟩
  simp [s3_upload_flow, enable_s3, _is_s3_expired]

/-- C6 amended: on the guarded upload path the cached credentials are
never used strictly past their expiration — the staleness check triggers
a refresh first and signing proceeds with the fresh credentials (the cache
is mutated only by that refresh); at or before the expiration instant the
cached credentials are used unchanged, and no failure is raised in either
case. -/
theorem s3_upload_flow_refresh (e now fresh : Int) :
    (e < now → s3_upload_flow (some e) now fresh = .signed (some fresh)) ∧
    (now ≤ e → s3_upload_flow (some e) now fresh = .signed (some e)) := by
  constructor <;> intro h
  · simp [s3_upload_flow, enable_s3, _is_s3_expired, h]
  · simp [s3_upload_flow, enable_s3, _is_s3_expired, not_lt.mpr h]

/-- Witness for the amended C6: strictly past expiration the refreshed
credentials are used, otherwise the cached ones. -/
theorem s3_upload_flow_refresh_witness :
    s3_upload_flow (some 0) 1 5 = .signed (some 5) ∧
    s3_upload_flow (some 3) 2 5 = .signed (some 3) :=
  ⟨(s3_upload_flow_refresh 0 1 5).1 (by decide),
    (s3_upload_flow_refresh 3 2 5).2 (by decide)⟩

end OrchestraApi

namespace OrchestraApi

/-- C2: a flat triple `[field, relation, value]` whose field is not the
literal `"or"` or `"and"` and whose relation is truthy compiles to the
top-level group `{"operator": "and", "conditions": [leaf]}`, the leaf's
values being `value` itself when it is a list and `[value]` otherwise. -/
theorem process_filters_flat_triple (field rel value : PyVal)
    (hor : pyEq field (.vstr "or") = false) (hand : pyEq field (.vstr "and") = false)
    (hrel : pyTruthy rel = true)
    (hflat : ¬(isVList field = true ∧ isVList rel = true ∧ isVList value = true)) :
    process_filters [field, rel, value] =
      .ok (.vdict [("operator", .vstr "and"),
        ("conditions", .vlist [.vdict [("path", field), ("relation", rel),
          ("values", if isVList value then value else .vlist [value])]])]) := by
  have hall : ([field, rel, value].all isVList) = false := by
    cases hf : isVList field <;> cases hr : isVList rel <;> cases hv : isVList value <;>
      simp_all [List.all]
  simp [process_filters, hor, hand, hall, hrel]

/-- Witness for C2 at `["name", "is", "Layout"]`. -/
theorem process_filters_flat_triple_witness :
    pyEq (.vstr "name") (.vstr "or") = false ∧
    pyTruthy (.vstr "is") = true ∧
    process_filters [.vstr "name", .vstr "is", .vstr "Layout"] =
      .ok (.vdict [("operator", .vstr "and"),
        ("conditions", .vlist [.vdict [("path", .vstr "name"), ("relation", .vstr "is"),
          ("values", .vlist [.vstr "Layout"])]])]) :=
  ⟨by decide, by decide,
    process_filters_flat_triple (.vstr "name") (.vstr "is") (.vstr "Layout")
      (by decide) (by decide) (by decide) (by decide)⟩

/-- C3 counter-evidence: on the two-triple filter
`[["name","is","Layout"], ["status","is","wtg"]]` the compiler returns a
group whose children are themselves single-leaf groups — the local `inject`
counter restarts at 0 inside each recursive call, so every recursively
compiled leaf is wrapped — contradicting the docstring's Example 2 (bare
leaves as the conditions). -/
theorem process_filters_wraps_recursive_leaves :
    process_filters [.vlist [.vstr "name", .vstr "is", .vstr "Layout"],
        .vlist [.vstr "status", .vstr "is", .vstr "wtg"]] =
      .ok (.vdict [("operator", .vstr "and"),
        ("conditions", .vlist [
          .vdict [("operator", .vstr "and"),
            ("conditions", .vlist [.vdict [("path", .vstr "name"),
              ("relation", .vstr "is"), ("values", .vlist [.vstr "Layout"])]])],
          .vdict [("operator", .vstr "and"),
            ("conditions", .vlist [.vdict [("path", .vstr "status"),
              ("relation", .vstr "is"), ("values", .vlist [.vstr "wtg"])]])]])]) := by
  simp [process_filters, process_conditions, pyEq, pyTruthy, isVList]

/-- C4: any expression that reaches the leaf branch with an element count
other than 3, or with a falsy relation in second position, fails with the
`MalformedFilter` assertion error. -/
theorem process_filters_malformed (fs : List PyVal)
    (hleaf : reachesLeafCase fs = true)
    (hbad : fs.length ≠ 3 ∨ (∃ f₀ f₁ f₂, fs = [f₀, f₁, f₂] ∧ pyTruthy f₁ = false)) :
    process_filters fs = .error .malformedFilter := by
  match fs with
  | [] => simp [reachesLeafCase] at hleaf
  | op :: rest =>
    have hall : ((if pyEq op (.vstr "or") || pyEq op (.vstr "and") then rest
        else op :: rest).all isVList) = false := by
      simp only [reachesLeafCase, strippedFilters, List.isEmpty_cons, Bool.not_false,
        Bool.true_and, Bool.not_eq_true'] at hleaf
      exact hleaf
    rcases rest with _ | ⟨f₁, _ | ⟨f₂, _ | ⟨f₃, rest'⟩⟩⟩
    · simp only [process_filters]
      rw [hall]
      simp
    · simp only [process_filters]
      rw [hall]
      simp
    · rcases hbad with hlen | ⟨g₀, g₁, g₂, heq, hfalse⟩
      · simp at hlen
      · simp only [List.cons.injEq, and_true] at heq
        obtain ⟨rfl, rfl, rfl⟩ := heq
        simp only [process_filters]
        rw [hall]
        simp [hfalse]
    · simp only [process_filters]
      rw [hall]
      simp

/-- Witness for C4 at the two-element expression `["name", "is"]`. -/
theorem process_filters_malformed_witness :
    reachesLeafCase [.vstr "name", .vstr "is"] = true ∧
    process_filters [.vstr "name", .vstr "is"] = .error .malformedFilter :=
  ⟨by decide,
    process_filters_malformed [.vstr "name", .vstr "is"] (by decide)
      (Or.inl (by decide))⟩

/-- C5: a triple whose field is literally `"or"` or `"and"`, with a truthy
relation and a non-list value, has its head stripped as an operator token;
the remainder `[relation, value]` is not all lists, so the original triple
is compiled as the leaf: the result is a group whose operator is the token
and whose single leaf has the token as its path. -/
theorem process_filters_operator_named_field (tok : String)
    (htok : tok = "or" ∨ tok = "and") (rel v : PyVal)
    (hrel : pyTruthy rel = true) (hv : isVList v = false) :
    process_filters [.vstr tok, rel, v] =
      .ok (.vdict [("operator", .vstr tok),
        ("conditions", .vlist [.vdict [("path", .vstr tok), ("relation", rel),
          ("values", .vlist [v])]])]) := by
  have hisOp : (pyEq (.vstr tok) (.vstr "or") || pyEq (.vstr tok) (.vstr "and")) = true := by
    rcases htok with h | h <;> subst h <;> decide
  have hall : ([rel, v].all isVList) = false := by
    simp [List.all, hv]
  simp [process_filters, hisOp, hall, hrel, hv]

/-- Scanning via `rowMatch` returns the first row of the scan whose `"id"` matches,
provided every row is a dict. -/
theorem rowMatch_eq_find (id : PyVal) (rows : List PyVal)
    (h : ∀ r ∈ rows, isVDict r = true) :
    rowMatch id rows = .ok (rows.find? (rowHasId id)) := by
  induction rows with
  | nil => simp [rowMatch]
  | cons r rest ih =>
    have hr := h r (by simp)
    have hrest : ∀ r' ∈ rest, isVDict r' = true := fun r' hr' => h r' (by simp [hr'])
    match r with
    | .vdict d =>
      by_cases hid : pyEq ((pyGet d "id").getD .vnone) id = true
      · simp [rowMatch, hid, List.find?_cons, rowHasId]
      · simp only [Bool.not_eq_true] at hid
        simp [rowMatch, hid, List.find?_cons, rowHasId, ih hrest]
    | .vstr _ => simp [isVDict] at hr
    | .vint _ => simp [isVDict] at hr
    | .vbool _ => simp [isVDict] at hr
    | .vnone => simp [isVDict] at hr
    | .vlist _ => simp [isVDict] at hr

/-- Children via `group_children` are computed, in id order, the first matching row of each
id, skipping unmatched ids, provided every row is a dict. -/
theorem group_children_eq_filterMap (rows : List PyVal)
    (h : ∀ r ∈ rows, isVDict r = true) (ids : List PyVal) :
    group_children rows ids =
      .ok (ids.filterMap (fun id => rows.find? (rowHasId id))) := by
  induction ids with
  | nil => simp [group_children]
  | cons id ids ih =>
    rw [group_children, rowMatch_eq_find id rows h, ih]
    rcases hfind : rows.find? (rowHasId id) with _ | v <;>
      simp [List.filterMap_cons, hfind]

/-- One group via `group_one` agrees with the per-descriptor grouping description
whenever the latter is defined, provided every row is a dict. -/
theorem group_one_eq_spec (rows : List PyVal) (h : ∀ r ∈ rows, isVDict r = true)
    (g v : PyVal) (hg : groupBySpec rows g = some v) :
    group_one rows g = .ok v := by
  match g with
  | .vdict d =>
    cases hids : (pyGet d "ids").getD .vnone with
    | vlist ids =>
      simp only [groupBySpec, hids, Option.some.injEq] at hg
      subst hg
      simp only [group_one, hids, group_children_eq_filterMap rows h ids]
    | vstr s => simp [groupBySpec, hids] at hg
    | vint n => simp [groupBySpec, hids] at hg
    | vbool b => simp [groupBySpec, hids] at hg
    | vnone => simp [groupBySpec, hids] at hg
    | vdict d' => simp [groupBySpec, hids] at hg
  | .vstr _ => simp [groupBySpec] at hg
  | .vint _ => simp [groupBySpec] at hg
  | .vbool _ => simp [groupBySpec] at hg
  | .vnone => simp [groupBySpec] at hg
  | .vlist _ => simp [groupBySpec] at hg

/-- The outer loop agrees with mapping the per-descriptor description over
the descriptors in order, provided every row is a dict. -/
theorem group_by_groups_eq_mapM (rows : List PyVal)
    (h : ∀ r ∈ rows, isVDict r = true) (gs : List PyVal) (out : List PyVal)
    (hspec : gs.mapM (groupBySpec rows) = some out) :
    group_by_groups rows gs = .ok out := by
  induction gs generalizing out with
  | nil =>
    simp only [List.mapM_nil, pure, Option.some.injEq] at hspec
    subst hspec
    simp [group_by_groups]
  | cons g gs ih =>
    simp only [List.mapM_cons, Option.bind_eq_bind, Option.bind_eq_some, pure,
      Option.some.injEq] at hspec
    obtain ⟨v, hv, out', hout', rfl⟩ := hspec
    rw [group_by_groups, group_one_eq_spec rows h g v hv, ih out' hout']

end OrchestraApi

namespace OrchestraApi

/-- C9: `get_rows` returns the single row object exactly when the paging
reports `page_size == 1` and the rows list is non-empty; in every other
case (page size absent or different from 1, or rows empty) it returns the
rows list unchanged. -/
theorem get_rows_single_iff (payload : List (String × PyVal)) (rs : List PyVal)
    (hrows : pyGet payload "rows" = some (.vlist rs))
    (hpag : pyGet payload "paging" = none ∨
      ∃ d, pyGet payload "paging" = some (.vdict d)) :
    (∀ r rest, rs = r :: rest → pyEq (pagingPageSize payload) (.vint 1) = true →
      get_rows payload = .ok r)
    ∧ (pyEq (pagingPageSize payload) (.vint 1) = false ∨ rs = [] →
      get_rows payload = .ok (.vlist rs)) := by
  rcases hpag with hp | ⟨d, hp⟩
  · constructor
    · rintro r rest rfl hps
      simp only [pagingPageSize, hp, Option.getD_none] at hps
      simp [pyGet, pyEq] at hps
    · intro h₂
      simp only [get_rows, hrows, hp, Option.getD_none, Option.getD_some]
      simp [pyGet, pyEq]
  · constructor
    · rintro r rest rfl hps
      simp only [pagingPageSize, hp, Option.getD_some] at hps
      simp [get_rows, hrows, hp, hps, pyTruthy]
    · intro h₂
      rcases h₂ with hps | rfl
      · simp only [pagingPageSize, hp, Option.getD_some] at hps
        simp [get_rows, hrows, hp, hps]
      · simp [get_rows, hrows, hp, pyTruthy]

/-- Witness for C9: a one-row payload with `page_size == 1` yields the row
object itself. -/
theorem get_rows_single_iff_witness :
    pyGet [("rows", PyVal.vlist [.vdict [("id", .vint 7)]]),
        ("paging", PyVal.vdict [("page_size", .vint 1)])] "rows" =
      some (.vlist [.vdict [("id", .vint 7)]]) ∧
    get_rows [("rows", PyVal.vlist [.vdict [("id", .vint 7)]]),
        ("paging", PyVal.vdict [("page_size", .vint 1)])] =
      .ok (.vdict [("id", .vint 7)]) :=
  ⟨rfl,
    (get_rows_single_iff
      [("rows", PyVal.vlist [.vdict [("id", .vint 7)]]),
        ("paging", PyVal.vdict [("page_size", .vint 1)])]
      [.vdict [("id", .vint 7)]] rfl
      (Or.inr ⟨[("page_size", .vint 1)], rfl⟩)).1
      (.vdict [("id", .vint 7)]) [] rfl rfl⟩

/-- C8 counter-evidence: the rows are never consumed across group scans,
so the single row `{"id": 5}` is attached to the children of both groups
whose id lists contain `5`. -/
theorem group_by_assigns_row_twice :
    group_by [("rows", PyVal.vlist [.vdict [("id", .vint 5)]]),
        ("groups", PyVal.vlist [
          .vdict [("display_name", .vstr "g1"), ("ids", .vlist [.vint 5])],
          .vdict [("display_name", .vstr "g2"), ("ids", .vlist [.vint 5])]])] =
      .ok [.vdict [("display_name", .vstr "g1"),
            ("children", .vlist [.vdict [("id", .vint 5)]])],
          .vdict [("display_name", .vstr "g2"),
            ("children", .vlist [.vdict [("id", .vint 5)]])]] := rfl

/-- C8 amended: `group_by` emits one output group per descriptor in input
order; within one group scan each id is matched to the first row with that
id and unmatched ids are skipped; rows are never consumed, so a row whose
id occurs in several descriptors (or twice in one) is attached each
time. -/
theorem group_by_eq_spec (payload : List (String × PyVal))
    (rows gs out : List PyVal)
    (hrows : get_rows payload = .ok (.vlist rows))
    (hdicts : ∀ r ∈ rows, isVDict r = true)
    (hgroups : pyGet payload "groups" = some (.vlist gs))
    (hspec : gs.mapM (groupBySpec rows) = some out) :
    group_by payload = .ok out := by
  simp only [group_by, hrows, hgroups, Option.getD_some]
  exact group_by_groups_eq_mapM rows hdicts gs out hspec

/-- Witness for the amended C8 on the two-group payload. -/
theorem group_by_eq_spec_witness :
    get_rows [("rows", PyVal.vlist [.vdict [("id", .vint 5)]]),
        ("groups", PyVal.vlist [
          .vdict [("display_name", .vstr "g1"), ("ids", .vlist [.vint 5])],
          .vdict [("display_name", .vstr "g2"), ("ids", .vlist [.vint 5])]])] =
      .ok (.vlist [.vdict [("id", .vint 5)]]) ∧
    group_by [("rows", PyVal.vlist [.vdict [("id", .vint 5)]]),
        ("groups", PyVal.vlist [
          .vdict [("display_name", .vstr "g1"), ("ids", .vlist [.vint 5])],
          .vdict [("display_name", .vstr "g2"), ("ids", .vlist [.vint 5])]])] =
      .ok [.vdict [("display_name", .vstr "g1"),
            ("children", .vlist [.vdict [("id", .vint 5)]])],
          .vdict [("display_name", .vstr "g2"),
            ("children", .vlist [.vdict [("id", .vint 5)]])]] :=
  ⟨rfl,
    group_by_eq_spec _ [.vdict [("id", .vint 5)]]
      [.vdict [("display_name", .vstr "g1"), ("ids", .vlist [.vint 5])],
        .vdict [("display_name", .vstr "g2"), ("ids", .vlist [.vint 5])]]
      _ rfl (by intro r hr; simp at hr; subst hr; rfl) rfl rfl⟩

/-- Witness for C5 at `["or", "is", "Layout"]`. -/
theorem process_filters_operator_named_field_witness :
    pyTruthy (.vstr "is") = true ∧ isVList (.vstr "Layout") = false ∧
    process_filters [.vstr "or", .vstr "is", .vstr "Layout"] =
      .ok (.vdict [("operator", .vstr "or"),
        ("conditions", .vlist [.vdict [("path", .vstr "or"), ("relation", .vstr "is"),
          ("values", .vlist [.vstr "Layout"])]])]) :=
  ⟨by decide, by decide,
    process_filters_operator_named_field "or" (Or.inl rfl) (.vstr "is") (.vstr "Layout")
      (by decide) (by decide)⟩

end OrchestraApi

namespace OrchestraApi

/-- The canonical-header accumulation of `_s3_request` (skipping excluded
names inside the fold) equals folding the lowered, collapsed, filtered
entry list of the reference description. -/
theorem canonicalFold_eq_filter_fold (l : List (String × String)) :
    ∀ acc, l.foldl
        (fun acc p =>
          let key := strLower p.1
          if isExcludedHeader key then acc
          else hdrSet acc key (collapseSpaces p.2)) acc =
      ((l.map (fun p => (strLower p.1, collapseSpaces p.2))).filter
          (fun p => !isExcludedHeader p.1)).foldl
        (fun acc p => hdrSet acc p.1 p.2) acc := by
  induction l with
  | nil => intro acc; rfl
  | cons p rest ih =>
    intro acc
    by_cases h : isExcludedHeader (strLower p.1)
    · simp [List.filter_cons, h, ih]
    · simp [List.filter_cons, h, ih]

/-- The signer's sorted canonical entries coincide with the reference
canonicalization. -/
theorem canonicalEntries_eq_reference (headers : List (String × String)) :
    canonicalEntries headers = referenceCanonicalEntries headers := by
  unfold canonicalEntries referenceCanonicalEntries canonicalFold
  rw [canonicalFold_eq_filter_fold]

/-- C1: for every credential record, HTTP method, object path, body, base
header set and fixed clock date, the Authorization header `_s3_request`
produces equals the reference Signature-V4 computation applied to the
request's own headers: `UNSIGNED-PAYLOAD` payload hash, canonical request
with empty query string, `DATE/REGION/s3/aws4_request` scope, the
four-step HMAC key chain, and the
`AWS4-HMAC-SHA256 Credential=.../scope, SignedHeaders=..., Signature=...`
header format. -/
theorem s3_request_authorization_eq_reference (H : HashFns)
    (creds : S3Credentials) (baseHeaders : List (String × String))
    (userAgent method objectName : String) (body : Option String)
    (amzDate signerDate : String) :
    (_s3_request H creds baseHeaders userAgent method objectName body
        amzDate signerDate).authorization =
      referenceAuthorization H creds method
        ("/" ++ creds.bucket ++ "/" ++ objectName)
        (_s3_request H creds baseHeaders userAgent method objectName body
          amzDate signerDate).preAuthHeaders
        amzDate signerDate := by
  simp only [_s3_request, referenceAuthorization, canonicalEntries_eq_reference]

end OrchestraApi


namespace OrchestraApi

/-- Updating a present key in place stores the new value under that key. -/
theorem hdrGet_map_update_self (d : List (String × String)) (k v : String)
    (h : d.any (fun p => p.1 == k) = true) :
    hdrGet (d.map (fun p => if p.1 == k then (k, v) else p)) k = some v := by
  induction d with
  | nil => simp at h
  | cons p rest ih =>
    rw [List.map_cons]
    by_cases hp : (p.1 == k) = true
    · rw [if_pos hp]
      simp [hdrGet, List.find?_cons]
    · have h' : rest.any (fun q => q.1 == k) = true := by
        simpa [List.any_cons, hp] using h
      rw [if_neg (by simp [hp])]
      have hrest := ih h'
      simpa [hdrGet, List.find?_cons, hp] using hrest

/-- In-place update of one key leaves every other key's value unchanged. -/
theorem hdrGet_map_update_ne (d : List (String × String)) (k v k' : String)
    (h : k' ≠ k) :
    hdrGet (d.map (fun p => if p.1 == k then (k, v) else p)) k' = hdrGet d k' := by
  induction d with
  | nil => rfl
  | cons p rest ih =>
    rw [List.map_cons]
    by_cases hp : (p.1 == k) = true
    · have hp' : p.1 = k := by simpa using hp
      rw [if_pos hp]
      have hne : ¬(k = k') := Ne.symm h
      simpa [hdrGet, List.find?_cons, hp', hne] using ih
    · rw [if_neg (by simp [hp])]
      by_cases hk' : (p.1 == k') = true
      · simp [hdrGet, List.find?_cons, hk']
      · simpa [hdrGet, List.find?_cons, hk'] using ih

/-- Appending a fresh key stores the new value under that key. -/
theorem hdrGet_append_self (d : List (String × String)) (k v : String)
    (h : d.any (fun p => p.1 == k) = false) :
    hdrGet (d ++ [(k, v)]) k = some v := by
  have hnone : d.find? (fun p => p.1 == k) = none := by
    rw [List.find?_eq_none]
    intro q hq hcontra
    have : d.any (fun p => p.1 == k) = true := List.any_eq_true.mpr ⟨q, hq, hcontra⟩
    rw [this] at h
    exact Bool.noConfusion h
  simp [hdrGet, List.find?_append, hnone, List.find?_cons]

/-- Appending one pair leaves every other key's value unchanged. -/
theorem hdrGet_append_ne (d : List (String × String)) (k v k' : String)
    (h : k' ≠ k) :
    hdrGet (d ++ [(k, v)]) k' = hdrGet d k' := by
  have hne : ¬(k = k') := Ne.symm h
  simp [hdrGet, List.find?_append, List.find?_cons, hne]

/-- Setting `headers[k] = v` makes `headers.get(k)` return `v`. -/
theorem hdrGet_hdrSet_self (d : List (String × String)) (k v : String) :
    hdrGet (hdrSet d k v) k = some v := by
  unfold hdrSet
  by_cases h : d.any (fun p => p.1 == k) = true
  · rw [if_pos h]
    exact hdrGet_map_update_self d k v h
  · rw [if_neg h]
    have hfalse : d.any (fun p => p.1 == k) = false := by
      cases hx : d.any (fun p => p.1 == k)
      · rfl
      · exact absurd hx h
    exact hdrGet_append_self d k v hfalse

/-- Setting `headers[k] = v` leaves every other key's value unchanged. -/
theorem hdrGet_hdrSet_ne (d : List (String × String)) (k v k' : String)
    (h : k' ≠ k) :
    hdrGet (hdrSet d k v) k' = hdrGet d k' := by
  unfold hdrSet
  by_cases hany : d.any (fun p => p.1 == k) = true
  · rw [if_pos hany]
    exact hdrGet_map_update_ne d k v k' h
  · rw [if_neg hany]
    exact hdrGet_append_ne d k v k' h

/-- An entry of `headers[k] = v` comes from the old dict or is the new
pair. -/
theorem mem_hdrSet (d : List (String × String)) (k v : String)
    (p : String × String) (h : p ∈ hdrSet d k v) : p ∈ d ∨ p = (k, v) := by
  unfold hdrSet at h
  split at h
  · obtain ⟨q, hq, hfq⟩ := List.mem_map.mp h
    by_cases hqk : (q.1 == k) = true
    · right
      rw [← hfq, if_pos hqk]
    · left
      rw [← hfq, if_neg (by simp [hqk])]
      exact hq
  · rcases List.mem_append.mp h with h' | h'
    · exact Or.inl h'
    · exact Or.inr (by simpa using h')

/-- An old entry whose key differs from the assigned one survives
`headers[k] = v`. -/
theorem mem_hdrSet_of_mem (d : List (String × String)) (k v : String)
    (p : String × String) (h : p ∈ d) (hk : (p.1 == k) = false) :
    p ∈ hdrSet d k v := by
  unfold hdrSet
  split
  · refine List.mem_map.mpr ⟨p, h, ?_⟩
    rw [if_neg (by simp [hk])]
  · exact List.mem_append_left _ h

/-- The assigned pair is an entry of `headers[k] = v`. -/
theorem mem_hdrSet_self (d : List (String × String)) (k v : String) :
    (k, v) ∈ hdrSet d k v := by
  have h := hdrGet_hdrSet_self d k v
  unfold hdrGet at h
  cases hfind : (hdrSet d k v).find? (fun p => p.1 == k) with
  | none => rw [hfind] at h; exact Option.noConfusion h
  | some q =>
    rw [hfind] at h
    have hq := List.find?_some hfind
    have hmem := List.mem_of_find?_eq_some hfind
    obtain ⟨q₁, q₂⟩ := q
    have h₁ : q₁ = k := by simpa using hq
    have h₂ : q₂ = v := by simpa using h
    subst h₁
    subst h₂
    exact hmem

/-- A dict whose entries all avoid key `k` has no value at `k`. -/
theorem hdrGet_eq_none (d : List (String × String)) (k : String)
    (h : ∀ p ∈ d, (p.1 == k) = false) : hdrGet d k = none := by
  unfold hdrGet
  rw [List.find?_eq_none.mpr]
  · rfl
  · intro p hp
    simp [h p hp]

end OrchestraApi

namespace OrchestraApi

/-- Inserting into a key-sorted list permutes consing. -/
theorem insertByKey_perm (p : String × String) (l : List (String × String)) :
    List.Perm (insertByKey p l) (p :: l) := by
  induction l with
  | nil => exact List.Perm.refl _
  | cons q rest ih =>
    unfold insertByKey
    split
    · exact List.Perm.refl _
    · exact (ih.cons q).trans (List.Perm.swap p q rest)

/-- Sorting the canonical entries permutes them. -/
theorem sortByKey_perm (l : List (String × String)) :
    List.Perm (sortByKey l) l := by
  induction l with
  | nil => exact List.Perm.refl _
  | cons p rest ih =>
    unfold sortByKey
    exact (insertByKey_perm p (sortByKey rest)).trans (ih.cons p)

/-- A canonical entry appears as a `name:value` line inside the joined
canonical header block. -/
theorem joinHeaderLines_mem (l : List (String × String)) (k v : String)
    (h : (k, v) ∈ l) :
    ∃ pre post, joinHeaderLines l = pre ++ (k ++ ":" ++ v) ++ post := by
  induction l with
  | nil => simp at h
  | cons p rest ih =>
    rcases List.mem_cons.mp h with heq | hmem
    · cases rest with
      | nil =>
        refine ⟨"", "", ?_⟩
        rw [← heq]
        simp [joinHeaderLines, String.append_empty, String.empty_append]
      | cons q rest' =>
        refine ⟨"", "\n" ++ joinHeaderLines (q :: rest'), ?_⟩
        rw [← heq]
        simp [joinHeaderLines, String.empty_append, String.append_assoc]
    · cases rest with
      | nil => simp at hmem
      | cons q rest' =>
        obtain ⟨pre, post, hJ⟩ := ih hmem
        refine ⟨p.1 ++ ":" ++ p.2 ++ "\n" ++ pre, post, ?_⟩
        rw [joinHeaderLines, hJ]
        simp [String.append_assoc]

/-- The canonical-header fold stores `collapseSpaces m` at key
`content-md5` whenever every entry whose lowered name is `content-md5` is
the pair `("Content-MD5", m)` and either that pair occurs in the
remaining entries or the accumulator already holds the collapsed value. -/
theorem canonicalFold_get_invariant (m : String) (l : List (String × String)) :
    ∀ acc,
      (∀ p ∈ l, strLower p.1 = "content-md5" → p = ("Content-MD5", m)) →
      (("Content-MD5", m) ∈ l ∨
        hdrGet acc "content-md5" = some (collapseSpaces m)) →
      hdrGet (l.foldl
          (fun acc p =>
            let key := strLower p.1
            if isExcludedHeader key then acc
            else hdrSet acc key (collapseSpaces p.2)) acc) "content-md5" =
        some (collapseSpaces m) := by
  induction l with
  | nil =>
    intro acc _ hin
    rcases hin with h | h
    · exact absurd h (List.not_mem_nil _)
    · simpa using h
  | cons p rest ih =>
    intro acc hall hin
    rw [List.foldl_cons]
    by_cases hlow : strLower p.1 = "content-md5"
    · have hp : p = ("Content-MD5", m) := hall p (List.mem_cons_self p rest) hlow
      subst hp
      apply ih
      · intro q hq hql
        exact hall q (List.mem_cons_of_mem _ hq) hql
      · right
        rw [show strLower ("Content-MD5" : String) = "content-md5" from by decide]
        rw [if_neg (by decide)]
        exact hdrGet_hdrSet_self acc "content-md5" _
    · apply ih
      · intro q hq hql
        exact hall q (List.mem_cons_of_mem _ hq) hql
      · rcases hin with hmem | hacc
        · rcases List.mem_cons.mp hmem with heq | hmem'
          · exfalso
            apply hlow
            rw [← heq]
            rfl
          · exact Or.inl hmem'
        · right
          by_cases hexc : isExcludedHeader (strLower p.1) = true
          · rw [if_pos hexc]
            exact hacc
          · rw [if_neg hexc, hdrGet_hdrSet_ne _ _ _ _ (Ne.symm hlow)]
            exact hacc

end OrchestraApi

namespace OrchestraApi

/-- A value `headers.get(k)` returns is an entry of the dict. -/
theorem hdrGet_mem (d : List (String × String)) (k v : String)
    (h : hdrGet d k = some v) : (k, v) ∈ d := by
  unfold hdrGet at h
  cases hfind : d.find? (fun p => p.1 == k) with
  | none => rw [hfind] at h; exact Option.noConfusion h
  | some q =>
    rw [hfind] at h
    have hq := List.find?_some hfind
    have hmem := List.mem_of_find?_eq_some hfind
    obtain ⟨q₁, q₂⟩ := q
    have h₁ : q₁ = k := by simpa using hq
    have h₂ : q₂ = v := by simpa using h
    subst h₁
    subst h₂
    exact hmem

/-- With no caller-supplied `Content-MD5` (in any letter case) and a
non-empty digest, the header-building prefix of `_s3_request` stores the
body digest under `Content-MD5`, that pair is an entry of the final
header dict, and it is the only entry whose lowered name is
`content-md5`. -/
theorem s3BuildHeaders_md5_facts (H : HashFns) (creds : S3Credentials)
    (baseHeaders : List (String × String)) (userAgent : String) (b : String)
    (amzDate : String) (hbody : b ≠ "")
    (hbase : ∀ p ∈ baseHeaders, strLower p.1 ≠ "content-md5")
    (hdigest : H.md5b64 (some b) ≠ "") :
    hdrGet (s3BuildHeaders H creds baseHeaders userAgent (some b) amzDate)
        "Content-MD5" = some (H.md5b64 (some b)) ∧
    ("Content-MD5", H.md5b64 (some b)) ∈
      s3BuildHeaders H creds baseHeaders userAgent (some b) amzDate ∧
    ∀ p ∈ s3BuildHeaders H creds baseHeaders userAgent (some b) amzDate,
      strLower p.1 = "content-md5" → p = ("Content-MD5", H.md5b64 (some b)) := by
  have hbase' : ∀ p ∈ baseHeaders, (p.1 == ("Content-MD5" : String)) = false := by
    intro p hp
    cases hbeq : (p.1 == ("Content-MD5" : String))
    · rfl
    · exfalso
      apply hbase p hp
      have hpk : p.1 = "Content-MD5" := by simpa using hbeq
      rw [hpk]
      rfl
  have hmd5added :
      hdrGet (hdrSet baseHeaders "Content-Type" "application/octet-stream")
        "Content-MD5" = none := by
    apply hdrGet_eq_none
    intro p hp
    rcases mem_hdrSet _ _ _ _ hp with hmem | rfl
    · exact hbase' p hmem
    · rfl
  have hbh : s3BuildHeaders H creds baseHeaders userAgent (some b) amzDate =
      hdrSet (hdrSet (hdrSet (hdrSet (hdrSet (hdrSet (hdrSet (hdrSet baseHeaders
        "Content-Type" "application/octet-stream")
        "Host" creds.endPoint)
        "User-Agent" userAgent)
        "Content-Length" (toString b.length))
        "Content-MD5" (H.md5b64 (some b)))
        "x-amz-content-sha256" "UNSIGNED-PAYLOAD")
        "X-Amz-Security-Token" creds.sessionToken)
        "x-amz-date" amzDate := by
    simp [s3BuildHeaders, hmd5added, hbody, hdigest]
  rw [hbh]
  refine ⟨?_, ?_, ?_⟩
  · rw [hdrGet_hdrSet_ne _ _ _ _ (by decide), hdrGet_hdrSet_ne _ _ _ _ (by decide),
      hdrGet_hdrSet_ne _ _ _ _ (by decide), hdrGet_hdrSet_self]
  · refine mem_hdrSet_of_mem _ _ _ _ ?_ rfl
    refine mem_hdrSet_of_mem _ _ _ _ ?_ rfl
    refine mem_hdrSet_of_mem _ _ _ _ ?_ rfl
    exact mem_hdrSet_self _ _ _
  · intro p hp hlow
    rcases mem_hdrSet _ _ _ _ hp with hp | rfl
    · rcases mem_hdrSet _ _ _ _ hp with hp | rfl
      · rcases mem_hdrSet _ _ _ _ hp with hp | rfl
        · rcases mem_hdrSet _ _ _ _ hp with hp | rfl
          · rcases mem_hdrSet _ _ _ _ hp with hp | rfl
            · rcases mem_hdrSet _ _ _ _ hp with hp | rfl
              · rcases mem_hdrSet _ _ _ _ hp with hp | rfl
                · rcases mem_hdrSet _ _ _ _ hp with hp | rfl
                  · exact absurd hlow (hbase p hp)
                  · exact absurd hlow (by decide)
                · exact absurd hlow
                    (by decide : ¬strLower "Host" = "content-md5")
              · exact absurd hlow
                  (by decide : ¬strLower "User-Agent" = "content-md5")
            · exact absurd hlow
                (by decide : ¬strLower "Content-Length" = "content-md5")
          · rfl
        · exact absurd hlow (by decide)
      · exact absurd hlow
          (by decide : ¬strLower "X-Amz-Security-Token" = "content-md5")
    · exact absurd hlow
        (by decide : ¬strLower "x-amz-date" = "content-md5")

end OrchestraApi

namespace OrchestraApi

/-- C10: for a non-empty body with no caller-supplied `Content-MD5`
header, `_s3_request` adds a `Content-MD5` header holding the body's MD5
digest; since `content-md5` is not among the excluded canonical names,
the digest appears in the canonical headers and `content-md5` in the
signed header names, so the signed canonical request binds the digest as
a `content-md5:` line even though the signed payload hash is the
`UNSIGNED-PAYLOAD` sentinel. -/
theorem s3_request_binds_content_md5 (H : HashFns) (creds : S3Credentials)
    (baseHeaders : List (String × String)) (userAgent method objectName : String)
    (b : String) (amzDate signerDate : String)
    (hbody : b ≠ "")
    (hbase : ∀ p ∈ baseHeaders, strLower p.1 ≠ "content-md5")
    (hdigest : H.md5b64 (some b) ≠ "") :
    hdrGet (_s3_request H creds baseHeaders userAgent method objectName (some b)
        amzDate signerDate).headers "Content-MD5" = some (H.md5b64 (some b)) ∧
    ("content-md5", collapseSpaces (H.md5b64 (some b))) ∈
      (_s3_request H creds baseHeaders userAgent method objectName (some b)
        amzDate signerDate).canonicalHeaders ∧
    "content-md5" ∈ (_s3_request H creds baseHeaders userAgent method objectName
        (some b) amzDate signerDate).signedHeaderNames ∧
    (_s3_request H creds baseHeaders userAgent method objectName (some b)
        amzDate signerDate).contentSha256 = "UNSIGNED-PAYLOAD" ∧
    ∃ pre post, (_s3_request H creds baseHeaders userAgent method objectName
        (some b) amzDate signerDate).canonicalRequest =
      pre ++ ("content-md5:" ++ collapseSpaces (H.md5b64 (some b))) ++ post := by
  obtain ⟨f₁, f₂, f₃⟩ := s3BuildHeaders_md5_facts H creds baseHeaders userAgent b
    amzDate hbody hbase hdigest
  have hfold : hdrGet (canonicalFold
      (s3BuildHeaders H creds baseHeaders userAgent (some b) amzDate))
      "content-md5" = some (collapseSpaces (H.md5b64 (some b))) :=
    canonicalFold_get_invariant (H.md5b64 (some b)) _ [] f₃ (Or.inl f₂)
  have hcanMem : ("content-md5", collapseSpaces (H.md5b64 (some b))) ∈
      canonicalEntries (s3BuildHeaders H creds baseHeaders userAgent (some b)
        amzDate) :=
    ((sortByKey_perm _).mem_iff).mpr (hdrGet_mem _ _ _ hfold)
  refine ⟨?_, hcanMem, ?_, rfl, ?_⟩
  · have e₁ : (_s3_request H creds baseHeaders userAgent method objectName (some b)
        amzDate signerDate).headers =
      hdrSet (_s3_request H creds baseHeaders userAgent method objectName (some b)
          amzDate signerDate).preAuthHeaders "Authorization"
        (_s3_request H creds baseHeaders userAgent method objectName (some b)
          amzDate signerDate).authorization := rfl
    rw [e₁, hdrGet_hdrSet_ne _ _ _ _ (by decide)]
    exact f₁
  · exact List.mem_map.mpr
      ⟨("content-md5", collapseSpaces (H.md5b64 (some b))), hcanMem, rfl⟩
  · obtain ⟨pre, post, hJ⟩ := joinHeaderLines_mem _ _ _ hcanMem
    refine ⟨method ++ "\n" ++ ("/" ++ creds.bucket ++ "/" ++ objectName) ++ "\n"
        ++ "" ++ "\n" ++ pre,
      post ++ "\n\n"
        ++ joinSemi ((canonicalEntries (s3BuildHeaders H creds baseHeaders
          userAgent (some b) amzDate)).map (fun p => p.1))
        ++ "\n" ++ "UNSIGNED-PAYLOAD", ?_⟩
    have e₅ : (_s3_request H creds baseHeaders userAgent method objectName (some b)
        amzDate signerDate).canonicalRequest =
      method ++ "\n" ++ ("/" ++ creds.bucket ++ "/" ++ objectName) ++ "\n" ++ ""
        ++ "\n" ++ joinHeaderLines (canonicalEntries (s3BuildHeaders H creds
          baseHeaders userAgent (some b) amzDate)) ++ "\n\n"
        ++ joinSemi ((canonicalEntries (s3BuildHeaders H creds baseHeaders
          userAgent (some b) amzDate)).map (fun p => p.1))
        ++ "\n" ++ "UNSIGNED-PAYLOAD" := rfl
    rw [e₅, hJ]
    simp [String.append_assoc]

end OrchestraApi

namespace OrchestraApi

/-- Witness for C10 with dummy hash functions, empty base headers and the
body `"body"`. -/
theorem s3_request_binds_content_md5_witness :
    ("body" : String) ≠ "" ∧
    (HashFns.mk (fun s => s) (fun k m => k ++ m) (fun k m => k ++ m)
        (fun _ => "digest")).md5b64 (some "body") ≠ "" ∧
    hdrGet (_s3_request
        (HashFns.mk (fun s => s) (fun k m => k ++ m) (fun k m => k ++ m)
          (fun _ => "digest"))
        (S3Credentials.mk "endpoint" true "bucket" "region" "ak" "sk" "token")
        [] "ua" "PUT" "obj.mov" (some "body") "20210101T000000Z"
        "20210101").headers "Content-MD5" = some "digest" :=
  ⟨by decide, by decide,
    (s3_request_binds_content_md5
      (HashFns.mk (fun s => s) (fun k m => k ++ m) (fun k m => k ++ m)
        (fun _ => "digest"))
      (S3Credentials.mk "endpoint" true "bucket" "region" "ak" "sk" "token")
      [] "ua" "PUT" "obj.mov" "body" "20210101T000000Z" "20210101"
      (by decide) (by simp) (by decide)).1⟩

end OrchestraApi
